import Mathlib

/-!
Verification development for the `bdm_scraper.py` article scraper.

The Python source is shallowly embedded into Lean: strings are modelled as
Lean `String`/`List Char` (Python `str` is a sequence of Unicode code points,
as is Lean's `String`), the regular expressions of the source are hand-compiled
into equivalent deterministic matchers (the patterns involved admit no
backtracking ambiguity, as argued in the comments), fallible code returns
`Except`/`Option`, and the external collaborators (the `dateutil` fuzzy parser,
`urllib.parse.urljoin`, the MongoDB collection) are passed in as explicit
function parameters or modelled as lists of documents.

Conventions:
* `\d` of Python regexes and the digits accepted by `int()` are modelled over
  ASCII digits (the inputs of interest are ASCII; Python additionally accepts
  other Unicode decimal digits).
* Python's `\s` (for `str` patterns) and `str.strip()` agree on the set of
  whitespace code points; `pySpace` below lists that set.
* `str.lower()` is modelled on the ASCII and Latin-1 letter ranges, which
  covers the French month names of the source.
-/

/-- Python whitespace: the code points matched by `\s` in a `str` regex,
which is also the set stripped by `str.strip()` (via `str.isspace`). -/
def pySpace (c : Char) : Bool :=
  c.toNat = 0x20 || c.toNat = 0x09 || c.toNat = 0x0a || c.toNat = 0x0d ||
  c.toNat = 0x0b || c.toNat = 0x0c ||
  (0x1c ≤ c.toNat && c.toNat ≤ 0x1f) ||
  c.toNat = 0x85 || c.toNat = 0xa0 || c.toNat = 0x1680 ||
  (0x2000 ≤ c.toNat && c.toNat ≤ 0x200a) ||
  c.toNat = 0x2028 || c.toNat = 0x2029 || c.toNat = 0x202f ||
  c.toNat = 0x205f || c.toNat = 0x3000

/-- ASCII decimal digit, the model of `\d` and of the digits accepted by `int()`. -/
def pyDigit (c : Char) : Bool :=
  48 ≤ c.toNat && c.toNat ≤ 57

/-- Python `str.lower()` restricted to ASCII `A`-`Z` and the Latin-1
uppercase letters U+00C0-U+00DE (excluding the multiplication sign U+00D7);
identity elsewhere.  This covers every character occurring in the French
month-name table. -/
def pyLowerChar (c : Char) : Char :=
  if 'A' ≤ c && c ≤ 'Z' then Char.ofNat (c.toNat + 32)
  else if 0xc0 ≤ c.toNat && c.toNat ≤ 0xde && c.toNat ≠ 0xd7 then Char.ofNat (c.toNat + 32)
  else c

def pyLowerL (cs : List Char) : List Char := cs.map pyLowerChar

def pyLower (s : String) : String := ⟨pyLowerL s.data⟩

/-- Drop a trailing run of characters satisfying `p`. -/
def dropTrailing (p : Char → Bool) (cs : List Char) : List Char :=
  ((cs.reverse).dropWhile p).reverse

/-- Python `str.strip()` on a list of characters. -/
def pyStripL (cs : List Char) : List Char :=
  dropTrailing pySpace (cs.dropWhile pySpace)

/-- Python `str.strip()`. -/
def pyStrip (s : String) : String := ⟨pyStripL s.data⟩

/-- State machine for `re.sub(r'\s+', ' ', ·)`: every maximal run of
whitespace becomes a single ASCII space.  The flag records whether the
previous character was part of a whitespace run. -/
def collapseWsAux : Bool → List Char → List Char
  | _, [] => []
  | prevSpace, c :: t =>
    if pySpace c then
      (if prevSpace then [] else [' ']) ++ collapseWsAux true t
    else
      c :: collapseWsAux false t

/-- `re.sub(r'\s+', ' ', cs)`. -/
def collapseWsL (cs : List Char) : List Char := collapseWsAux false cs

/-- The character class `[  -​  ]` of `clean_text`'s
second substitution. -/
def zwClass (c : Char) : Bool :=
  c.toNat = 0xa0 || (0x2000 ≤ c.toNat && c.toNat ≤ 0x200b) ||
  c.toNat = 0x2028 || c.toNat = 0x2029

/-- `clean_text` on a list of characters: `text.strip()`, collapse `\s+`
runs to one space, replace the `zwClass` characters by spaces, strip again. -/
def cleanTextL (cs : List Char) : List Char :=
  if cs = [] then []
  else
    pyStripL ((collapseWsL (pyStripL cs)).map (fun c => if zwClass c then ' ' else c))

/-- Embedding of `clean_text` (src/bdm_scraper.py lines 86-95):
`if not text: return ""`, then `re.sub(r'\s+', ' ', text.strip())`, then
`re.sub(r'[  -​  ]', ' ', text)`, then `.strip()`.
A `None` input (also falsy) is subsumed by the empty string case. -/
def clean_text (s : String) : String := ⟨cleanTextL s.data⟩

example : clean_text "  a​​b " = "a  b" := by decide
example : clean_text " x ​ y " = "x   y" := by decide
example : clean_text "a \t\n b" = "a b" := by decide
example : clean_text "" = "" := by decide

/-! ## Digit formatting: Python `f"{n:04d}"`, `f"{n:02d}"`, `strftime("%Y%m%d")` -/

/-- Decimal digit character for a value below ten. -/
def digitChar10 (d : Nat) : Char :=
  if d = 0 then '0' else if d = 1 then '1' else if d = 2 then '2'
  else if d = 3 then '3' else if d = 4 then '4' else if d = 5 then '5'
  else if d = 6 then '6' else if d = 7 then '7' else if d = 8 then '8' else '9'

/-- Fuel-driven base-10 digit expansion (most significant first); the fuel is
always instantiated with the number itself, which suffices since the value is
divided by ten at every step.  `natDigits 0 = []`. -/
def natDigitsAux : Nat → Nat → List Char → List Char
  | 0, _, acc => acc
  | _ + 1, 0, acc => acc
  | fuel + 1, n + 1, acc => natDigitsAux fuel ((n + 1) / 10) (digitChar10 ((n + 1) % 10) :: acc)

def natDigits (n : Nat) : List Char := natDigitsAux n n []

/-- Python `f"{n:0wd}"` for a nonnegative `n`: decimal digits, left-padded
with zeros to width `w` (never truncated). -/
def fmtPad (w : Nat) (n : Nat) : List Char :=
  let ds := natDigits n
  List.replicate (w - ds.length) '0' ++ ds

example : fmtPad 4 2025 = ['2', '0', '2', '5'] := by decide
example : fmtPad 2 8 = ['0', '8'] := by decide
example : fmtPad 4 0 = ['0', '0', '0', '0'] := by decide

/-- Value of a list of ASCII digit characters, the model of Python `int()`
applied to a regex group known to consist of digits. -/
def digitsToNat (cs : List Char) : Nat :=
  cs.foldl (fun a c => a * 10 + (c.toNat - 48)) 0

example : digitsToNat ['2', '0', '2', '5'] = 2025 := by decide

/-! ## The French date normalizer `parse_french_date` (lines 52-83) -/

/-- The `FRENCH_MONTHS` table of the source (lines 47-50): lowercase French
month names (with accent-stripped variants) to zero-padded month numbers. -/
def FRENCH_MONTHS : List (String × String) :=
  [("janvier", "01"), ("février", "02"), ("fevrier", "02"), ("mars", "03"),
   ("avril", "04"), ("mai", "05"), ("juin", "06"), ("juillet", "07"),
   ("août", "08"), ("aout", "08"), ("septembre", "09"), ("octobre", "10"),
   ("novembre", "11"), ("décembre", "12"), ("decembre", "12")]

/-- `FRENCH_MONTHS.get(month_name)`. -/
def monthLookup (name : List Char) : Option String :=
  (FRENCH_MONTHS.find? (fun p => p.1.data = name)).map Prod.snd

/-- Character class `[^\s,]` of the month token. -/
def monthChar (c : Char) : Bool := !pySpace c && c != ','

/-- Attempt to match the tier-1 pattern `(\d{1,2})\s+([^\s,]+)\s+(\d{4})`
anchored at the start of `cs`, returning the three captured groups
(day, month token, year).

This is an exact compilation of the Python regex at one start position:
* `\d{1,2}` is greedy, but a longer digit run can never be saved by
  backtracking (the shorter day would leave a digit where `\s+` must match),
  so the day is the whole leading digit run, failing if it is empty or longer
  than two;
* `\s+` must swallow a maximal whitespace run (the following atom cannot
  begin with whitespace), and `[^\s,]+` must swallow a maximal run of its
  class (shrinking it would leave a class character where `\s+` must match);
* `\d{4}` requires exactly four digits with no boundary requirement after
  them. -/
def matchTier1At (cs : List Char) : Option (List Char × List Char × List Char) :=
  let ds := cs.takeWhile pyDigit
  let r1 := cs.dropWhile pyDigit
  if ds.length = 0 || decide (2 < ds.length) then none
  else
    let ws1 := r1.takeWhile pySpace
    let r2 := r1.dropWhile pySpace
    if ws1.length = 0 then none
    else
      let ms := r2.takeWhile monthChar
      let r3 := r2.dropWhile monthChar
      if ms.length = 0 then none
      else
        let ws2 := r3.takeWhile pySpace
        let r4 := r3.dropWhile pySpace
        if ws2.length = 0 then none
        else
          let ys := r4.take 4
          if ys.length = 4 && ys.all pyDigit then some (ds, ms, ys) else none

/-- `re.search` for the tier-1 pattern: try every start position from the
left, first success wins (Python's leftmost-match rule). -/
def tier1Search : List Char → Option (List Char × List Char × List Char)
  | [] => none
  | c :: rest => (matchTier1At (c :: rest)).orElse (fun _ => tier1Search rest)

example :
    tier1Search "Publié le 28 août 2025 à 11h05".data =
      some ("28".data, "août".data, "2025".data) := by decide

/-- Attempt to match `(\d{4})-(\d{2})-(\d{2})` anchored at the start of `cs`.
The pattern is fixed-width, so no backtracking is involved. -/
def matchIsoAt (cs : List Char) : Option (List Char × List Char × List Char) :=
  match cs with
  | a :: b :: c :: d :: h1 :: e :: f :: h2 :: g :: h :: _ =>
    if h1 = '-' && h2 = '-' && [a, b, c, d, e, f, g, h].all pyDigit then
      some ([a, b, c, d], [e, f], [g, h])
    else none
  | _ => none

/-- `re.search` for the ISO pattern. -/
def isoSearch : List Char → Option (List Char × List Char × List Char)
  | [] => none
  | c :: rest => (matchIsoAt (c :: rest)).orElse (fun _ => isoSearch rest)

example : isoSearch "around 2025-08-28 here".data =
    some ("2025".data, "08".data, "28".data) := by decide

/-- A `datetime.datetime` as far as `strftime("%Y%m%d")` is concerned.
Python's `datetime` guarantees `1 ≤ year ≤ 9999`, `1 ≤ month ≤ 12` and
`1 ≤ day ≤ 31`; those bounds appear as hypotheses where needed. -/
structure PyDateTime where
  year : Nat
  month : Nat
  day : Nat

/-- `dt.strftime("%Y%m%d")` (line 81): `%Y` zero-padded to four digits,
`%m` and `%d` to two, per the format-code table of the `datetime` docs. -/
def strftimeYmd (dt : PyDateTime) : String :=
  ⟨fmtPad 4 dt.year ++ fmtPad 2 dt.month ++ fmtPad 2 dt.day⟩

/-- Tiers 2 and 3 of `parse_french_date` (lines 73-83), operating on the
already-stripped text: first ISO fragment reassembled without separators,
else the `dateutil` fuzzy parse (passed in as `fb`, with `none` standing for
any raised parse exception, which the source converts to `None`). -/
def isoOrFallback (fb : String → Option PyDateTime) (t : List Char) : Option String :=
  match isoSearch t with
  | some (y, m, d) => some ⟨y ++ m ++ d⟩
  | none => (fb ⟨t⟩).map strftimeYmd

/-- Embedding of `parse_french_date` (src/bdm_scraper.py lines 52-83).
`fb` models `dateutil_parser.parse(text, dayfirst=True, fuzzy=True)`;
the source applies it to the stripped text and catches every exception,
hence the `Option` codomain.  Control flow of the source: empty (falsy)
input returns `None`; the text is stripped; if the tier-1 regex finds a
(leftmost) match whose lowercased month token is in `FRENCH_MONTHS`, the
result is `f"{year:04d}{month}{day:02d}"`; otherwise control falls through
to the ISO tier and then the fallback. -/
def parse_french_date (fb : String → Option PyDateTime) (text : String) : Option String :=
  if text = "" then none
  else
    let t := pyStripL text.data
    match tier1Search t with
    | some (d, m, y) =>
      match monthLookup (pyLowerL m) with
      | some mm => some ⟨fmtPad 4 (digitsToNat y) ++ mm.data ++ fmtPad 2 (digitsToNat d)⟩
      | none => isoOrFallback fb t
    | none => isoOrFallback fb t

/-- A fallback that never parses, used to instantiate closed evaluations
whose result does not reach tier 3. -/
def noFb : String → Option PyDateTime := fun _ => none

example : parse_french_date noFb "28 août 2025" = some "20250828" := by decide
example : parse_french_date noFb "Publié le 28 Août 2025 à 11h05" = some "20250828" := by decide
example : parse_french_date noFb "voir 2025-08-28 ici" = some "20250828" := by decide
example : parse_french_date noFb "" = none := by decide
example : parse_french_date noFb "5 janvier 2025" = some "20250105" := by decide
example : parse_french_date noFb "99 janvier 2025" = some "20250199" := by decide
example : parse_french_date noFb "rien du tout" = none := by decide
example : parse_french_date (fun _ => some ⟨2024, 3, 7⟩) "rien" = some "20240307" := by decide

/-! ## Generic list lemmas used by the whitespace reasoning -/

theorem head?_dropWhile_not (p : Char → Bool) :
    ∀ (l : List Char) (c : Char), (l.dropWhile p).head? = some c → p c = false := by
  intro l
  induction l with
  | nil => intro c h; simp [List.dropWhile] at h
  | cons a t ih =>
    intro c h
    by_cases hp : p a
    · rw [List.dropWhile_cons, if_pos hp] at h
      exact ih c h
    · rw [List.dropWhile_cons, if_neg hp] at h
      simp at h
      rw [← h]
      exact Bool.of_not_eq_true hp

theorem head?_of_prefix {l₁ l₂ : List Char} (h : l₁ <+: l₂) {c : Char}
    (hc : l₁.head? = some c) : l₂.head? = some c := by
  rcases h with ⟨t, rfl⟩
  cases l₁ with
  | nil => simp at hc
  | cons a s => simpa using hc

theorem dropTrailing_isPrefixOf (p : Char → Bool) (l : List Char) : dropTrailing p l <+: l := by
  rcases List.dropWhile_suffix (l := l.reverse) (p := p) with ⟨t, ht⟩
  refine ⟨t.reverse, ?_⟩
  have h2 := congrArg List.reverse ht
  simpa [List.reverse_append] using h2

theorem pyStripL_head {l : List Char} {c : Char}
    (h : (pyStripL l).head? = some c) : pySpace c = false := by
  have h2 : (l.dropWhile pySpace).head? = some c :=
    head?_of_prefix (dropTrailing_isPrefixOf _ _) h
  exact head?_dropWhile_not _ _ _ h2

theorem pyStripL_revHead {l : List Char} {c : Char}
    (h : (pyStripL l).reverse.head? = some c) : pySpace c = false := by
  rw [pyStripL, dropTrailing, List.reverse_reverse] at h
  exact head?_dropWhile_not _ _ _ h

theorem pyStripL_isInfixOf (l : List Char) : pyStripL l <:+: l :=
  ((dropTrailing_isPrefixOf pySpace (l.dropWhile pySpace)).isInfix).trans
    (List.dropWhile_suffix pySpace).isInfix

/-! ## Adjacent double spaces -/

/-- `cs` contains two adjacent ASCII space characters. -/
def hasDS : List Char → Bool
  | [] => false
  | [_] => false
  | a :: b :: t => (a = ' ' && b = ' ') || hasDS (b :: t)

theorem hasDS_iff : ∀ l : List Char, hasDS l = true ↔ [' ', ' '] <:+: l := by
  intro l
  induction l with
  | nil =>
    constructor
    · intro h; simp [hasDS] at h
    · intro h; have h2 := h.sublist.length_le; simp at h2
  | cons a t ih =>
    cases t with
    | nil =>
      constructor
      · intro h; simp [hasDS] at h
      · intro h; have h2 := h.sublist.length_le; simp at h2
    | cons b t' =>
      simp only [hasDS, Bool.or_eq_true, Bool.and_eq_true, decide_eq_true_eq]
      constructor
      · rintro (⟨rfl, rfl⟩ | hr)
        · exact ⟨[], t', rfl⟩
        · rcases ih.mp hr with ⟨s, u, hsu⟩
          exact ⟨a :: s, u, by simp [hsu]⟩
      · rintro ⟨s, u, hsu⟩
        cases s with
        | nil =>
          simp only [List.nil_append, List.cons_append, List.cons.injEq] at hsu
          exact Or.inl ⟨hsu.1.symm, hsu.2.1.symm⟩
        | cons x s' =>
          simp only [List.cons_append, List.cons.injEq] at hsu
          exact Or.inr (ih.mpr ⟨s', u, hsu.2⟩)

theorem hasDS_of_infix {l₁ l₂ : List Char} (h : l₁ <:+: l₂) (h1 : hasDS l₁ = true) :
    hasDS l₂ = true :=
  (hasDS_iff l₂).mpr (((hasDS_iff l₁).mp h1).trans h)

/-! ## Properties of the whitespace collapse -/

theorem collapseWsAux_space_true {a : Char} (t : List Char) (hp : pySpace a = true) :
    collapseWsAux true (a :: t) = collapseWsAux true t := by
  simp [collapseWsAux, hp]

theorem collapseWsAux_space_false {a : Char} (t : List Char) (hp : pySpace a = true) :
    collapseWsAux false (a :: t) = ' ' :: collapseWsAux true t := by
  simp [collapseWsAux, hp]

theorem collapseWsAux_nonspace {a : Char} (t : List Char) (b : Bool) (hp : pySpace a = false) :
    collapseWsAux b (a :: t) = a :: collapseWsAux false t := by
  simp [collapseWsAux, hp]

theorem collapseWsAux_head_true :
    ∀ (cs : List Char) (c : Char), (collapseWsAux true cs).head? = some c → pySpace c = false := by
  intro cs
  induction cs with
  | nil => intro c h; simp [collapseWsAux] at h
  | cons a t ih =>
    intro c h
    by_cases hp : pySpace a
    · rw [collapseWsAux_space_true t hp] at h
      exact ih c h
    · rw [collapseWsAux_nonspace t true (Bool.of_not_eq_true hp)] at h
      simp at h
      rw [← h]
      exact Bool.of_not_eq_true hp

theorem collapseWsAux_noDS : ∀ (cs : List Char) (b : Bool), hasDS (collapseWsAux b cs) = false := by
  intro cs
  induction cs with
  | nil => intro b; rfl
  | cons a t ih =>
    intro b
    by_cases hp : pySpace a
    · cases b with
      | true => rw [collapseWsAux_space_true t hp]; exact ih true
      | false =>
        rw [collapseWsAux_space_false t hp]
        cases haux : collapseWsAux true t with
        | nil => rfl
        | cons x xs =>
          have hx : pySpace x = false := collapseWsAux_head_true t x (by rw [haux]; rfl)
          have hxe : x ≠ ' ' := by
            intro e; subst e; exact absurd hx (by decide)
          have hds : hasDS (x :: xs) = false := by rw [← haux]; exact ih true
          simp [hasDS, hxe, hds]
    · rw [collapseWsAux_nonspace t b (Bool.of_not_eq_true hp)]
      cases haux : collapseWsAux false t with
      | nil => rfl
      | cons x xs =>
        have hae : a ≠ ' ' := by
          intro e; subst e; exact hp (by decide)
        have hds : hasDS (x :: xs) = false := by rw [← haux]; exact ih false
        simp [hasDS, hae, hds]

theorem collapseWsAux_chars : ∀ (cs : List Char) (b : Bool) (c : Char),
    c ∈ collapseWsAux b cs → c = ' ' ∨ (c ∈ cs ∧ pySpace c = false) := by
  intro cs
  induction cs with
  | nil => intro b c h; simp [collapseWsAux] at h
  | cons a t ih =>
    intro b c h
    by_cases hp : pySpace a
    · cases b with
      | true =>
        rw [collapseWsAux_space_true t hp] at h
        rcases ih true c h with h1 | h2
        · exact Or.inl h1
        · exact Or.inr ⟨List.mem_cons_of_mem _ h2.1, h2.2⟩
      | false =>
        rw [collapseWsAux_space_false t hp] at h
        rcases List.mem_cons.mp h with rfl | h3
        · exact Or.inl rfl
        · rcases ih true c h3 with h1 | h2
          · exact Or.inl h1
          · exact Or.inr ⟨List.mem_cons_of_mem _ h2.1, h2.2⟩
    · rw [collapseWsAux_nonspace t b (Bool.of_not_eq_true hp)] at h
      rcases List.mem_cons.mp h with rfl | h3
      · exact Or.inr ⟨List.mem_cons_self _ _, Bool.of_not_eq_true hp⟩
      · rcases ih false c h3 with h1 | h2
        · exact Or.inl h1
        · exact Or.inr ⟨List.mem_cons_of_mem _ h2.1, h2.2⟩

theorem zw_nonspace {c : Char} (h1 : pySpace c = false) (h2 : c.toNat ≠ 0x200b) :
    zwClass c = false := by
  simp only [pySpace, Bool.or_eq_false_iff, Bool.and_eq_false_iff,
    decide_eq_false_iff_not] at h1
  simp only [zwClass, Bool.or_eq_false_iff, Bool.and_eq_false_iff,
    decide_eq_false_iff_not]
  omega

theorem zw_map_id {l : List Char} (h : ∀ c ∈ l, zwClass c = false) :
    (l.map (fun c => if zwClass c then ' ' else c)) = l := by
  induction l with
  | nil => rfl
  | cons a t ih =>
    have ha := h a (List.mem_cons_self _ _)
    rw [List.map_cons, if_neg (by simp [ha]), ih (fun c hc => h c (List.mem_cons_of_mem _ hc))]

/-! ## Claim C8: the text normalizer -/

/-- C8 counterexample.  The claim states that the output of `clean_text`
never contains two adjacent space characters.  The zero-width space U+200B
is not `\s`-whitespace, so it survives the `\s+`-collapsing first
substitution and is only replaced by an ASCII space by the second
substitution, after which no re-collapsing happens: the input
`"a​​b"` yields `"a  b"`, which contains two adjacent spaces. -/
theorem claim_C8_counterexample :
    clean_text "a​​b" = "a  b" ∧ hasDS (clean_text "a​​b").data = true := by
  constructor
  · decide
  · decide

/-- C8 (amended): `clean_text` collapses every run of `\s`-whitespace into a
single ASCII space and trims, so its output never starts or ends with
whitespace, and — provided the input contains no zero-width space U+200B,
whose late replacement by a space can create adjacent spaces — the output
never contains two adjacent space characters; the empty input yields the
empty string (and the function is total, hence never raises). -/
theorem claim_C8 : ∀ s : String,
    (∀ c, (clean_text s).data.head? = some c → pySpace c = false) ∧
    (∀ c, (clean_text s).data.reverse.head? = some c → pySpace c = false) ∧
    ((∀ c ∈ s.data, c.toNat ≠ 0x200b) → hasDS (clean_text s).data = false) ∧
    (s = "" → clean_text s = "") := by
  intro s
  have hdata : (clean_text s).data = cleanTextL s.data := rfl
  refine ⟨?_, ?_, ?_, ?_⟩
  · intro c h
    rw [hdata, cleanTextL] at h
    split at h
    · simp at h
    · exact pyStripL_head h
  · intro c h
    rw [hdata, cleanTextL] at h
    split at h
    · simp at h
    · exact pyStripL_revHead h
  · intro hzw
    rw [hdata, cleanTextL]
    split
    · rfl
    · set t1 := collapseWsL (pyStripL s.data) with ht1
      have hmap : (t1.map (fun c => if zwClass c then ' ' else c)) = t1 := by
        apply zw_map_id
        intro c hc
        rcases collapseWsAux_chars (pyStripL s.data) false c hc with h1 | h2
        · subst h1; decide
        · have hmem : c ∈ s.data := (pyStripL_isInfixOf s.data).subset h2.1
          exact zw_nonspace h2.2 (hzw c hmem)
      rw [hmap]
      by_contra hne
      have htrue : hasDS (pyStripL t1) = true := by
        cases hb : hasDS (pyStripL t1)
        · exact absurd hb hne
        · rfl
      have h2 : hasDS t1 = true := hasDS_of_infix (pyStripL_isInfixOf t1) htrue
      rw [ht1, collapseWsL] at h2
      rw [collapseWsAux_noDS (pyStripL s.data) false] at h2
      exact Bool.false_ne_true h2
  · intro he; subst he; rfl

/-- C8 witness: the amended theorem applied at a concrete input containing
tab, no-break-space and multiple-space runs. -/
theorem claim_C8_witness :
    hasDS (clean_text "un  texte\t avec des espaces").data = false :=
  (claim_C8 "un  texte\t avec des espaces").2.2.1 (by decide)

/-! ## Claim C1: the three-tier date cascade -/

/-- The tier-1 stage resolves: the leftmost day/token/year match (if any) has
its lowercased month token in `FRENCH_MONTHS`. -/
def tier1Resolves (text : String) : Bool :=
  match tier1Search (pyStripL text.data) with
  | some (_, m, _) => (monthLookup (pyLowerL m)).isSome
  | none => false

/-- C1 (amended): tier 1 acts on the *leftmost* match of the
day/month-token/year pattern.  If that leftmost match has its month token in
the table, `parse_french_date` returns year, mapped month and zero-padded
day; if no tier-1 match resolves but a `YYYY-MM-DD` fragment occurs, the
first such fragment's digits are returned concatenated; and a tier-1 match
whose month token is not in the table falls through to the ISO tier and then
the generic fallback. -/
theorem claim_C1 : ∀ (fb : String → Option PyDateTime) (text : String),
    (∀ d m y mm, tier1Search (pyStripL text.data) = some (d, m, y) →
      monthLookup (pyLowerL m) = some mm →
      parse_french_date fb text =
        some ⟨fmtPad 4 (digitsToNat y) ++ mm.data ++ fmtPad 2 (digitsToNat d)⟩) ∧
    (tier1Resolves text = false →
      ∀ y m d, isoSearch (pyStripL text.data) = some (y, m, d) →
      parse_french_date fb text = some ⟨y ++ m ++ d⟩) ∧
    (∀ d m y, tier1Search (pyStripL text.data) = some (d, m, y) →
      monthLookup (pyLowerL m) = none →
      parse_french_date fb text = isoOrFallback fb (pyStripL text.data)) := by
  intro fb text
  by_cases he : text = ""
  · subst he
    have h0 : tier1Search (pyStripL ("" : String).data) = none := rfl
    have h1 : isoSearch (pyStripL ("" : String).data) = none := rfl
    refine ⟨?_, ?_, ?_⟩
    · intro d m y mm ht _; rw [h0] at ht; exact absurd ht (by simp)
    · intro _ y m d ht; rw [h1] at ht; exact absurd ht (by simp)
    · intro d m y ht _; rw [h0] at ht; exact absurd ht (by simp)
  · have hunfold : parse_french_date fb text =
        (match tier1Search (pyStripL text.data) with
         | some (d, m, y) =>
           match monthLookup (pyLowerL m) with
           | some mm =>
             some ⟨fmtPad 4 (digitsToNat y) ++ mm.data ++ fmtPad 2 (digitsToNat d)⟩
           | none => isoOrFallback fb (pyStripL text.data)
         | none => isoOrFallback fb (pyStripL text.data)) := by
      rw [parse_french_date, if_neg he]
    refine ⟨?_, ?_, ?_⟩
    · intro d m y mm ht hmm
      rw [hunfold]
      simp only [ht, hmm]
    · intro hres y m d hiso
      rw [hunfold]
      cases ht : tier1Search (pyStripL text.data) with
      | none => simp only [isoOrFallback, hiso]
      | some r =>
        obtain ⟨d0, m0, y0⟩ := r
        cases hml : monthLookup (pyLowerL m0) with
        | some v =>
          simp only [tier1Resolves, ht, hml] at hres
          simp at hres
        | none => simp only [hml, isoOrFallback, hiso]
    · intro d m y ht hmm
      rw [hunfold]
      simp only [ht, hmm]

/-- C1 counterexample.  The claim quantifies over every text *containing* a
valid spelled French date.  The text below contains `28 aout 2025` (day,
table month token, year), yet `parse_french_date` does not return
`"20250828"`: the regex engine commits to the *leftmost* tier-1 match
`1 xxx 2000`, whose month token misses the table, and falls through to the
ISO tier, which finds `2024-01-02`. -/
theorem claim_C1_counterexample :
    matchTier1At "28 aout 2025 et 2024-01-02".data =
      some ("28".data, "aout".data, "2025".data) ∧
    monthLookup (pyLowerL "aout".data) = some "08" ∧
    parse_french_date noFb "1 xxx 2000 puis 28 aout 2025 et 2024-01-02" =
      some "20240102" ∧
    parse_french_date noFb "1 xxx 2000 puis 28 aout 2025 et 2024-01-02" ≠
      some "20250828" := by
  refine ⟨by decide, by decide, by decide, by decide⟩

/-- C1 witness: the amended theorem applied to the spec's own examples. -/
theorem claim_C1_witness :
    parse_french_date noFb "28 août 2025" = some "20250828" ∧
    parse_french_date noFb "12 xyz 2024, date iso 2023-05-06" = some "20230506" := by
  constructor
  · have h := (claim_C1 noFb "28 août 2025").1 "28".data "août".data "2025".data "08"
      (by decide) (by decide)
    exact h.trans (by decide)
  · have h := (claim_C1 noFb "12 xyz 2024, date iso 2023-05-06").2.1 (by decide)
      "2023".data "05".data "06".data (by decide)
    exact h.trans (by decide)

/-! ## Claim C9: the date field is empty or eight digits -/

theorem takeWhile_all (p : Char → Bool) (l : List Char) : (l.takeWhile p).all p = true := by
  rw [List.all_eq_true]
  intro c hc
  exact List.mem_takeWhile_imp hc

theorem matchTier1At_wf {cs d m y : List Char}
    (h : matchTier1At cs = some (d, m, y)) :
    d.all pyDigit = true ∧ 1 ≤ d.length ∧ d.length ≤ 2 ∧
    y.all pyDigit = true ∧ y.length = 4 := by
  simp only [matchTier1At] at h
  split_ifs at h with h1 h2 h3 h4 h5
  simp only [Option.some.injEq, Prod.mk.injEq] at h
  obtain ⟨rfl, rfl, rfl⟩ := h
  simp only [Bool.or_eq_true, decide_eq_true_eq, not_or] at h1
  simp only [Bool.and_eq_true, decide_eq_true_eq] at h5
  refine ⟨takeWhile_all _ _, by omega, by omega, h5.2, h5.1⟩

theorem tier1Search_wf : ∀ {cs d m y : List Char},
    tier1Search cs = some (d, m, y) →
    d.all pyDigit = true ∧ 1 ≤ d.length ∧ d.length ≤ 2 ∧
    y.all pyDigit = true ∧ y.length = 4 := by
  intro cs
  induction cs with
  | nil => intro d m y h; exact absurd h (by simp [tier1Search])
  | cons a t ih =>
    intro d m y h
    rw [tier1Search] at h
    cases hm : matchTier1At (a :: t) with
    | some r =>
      rw [hm] at h
      have hr : r = (d, m, y) := by
        cases hx : (some r).orElse (fun _ => tier1Search t) with
        | none => rw [hx] at h; exact absurd h (by simp)
        | some v => rw [hx] at h; simp [Option.orElse] at hx; simp at h; rw [hx, h]
      exact matchTier1At_wf (hm.trans (by rw [hr]))
    | none =>
      rw [hm] at h
      simp only [Option.orElse] at h
      exact ih h

theorem digitsToNat_aux_lt : ∀ (cs : List Char) (a : Nat), cs.all pyDigit = true →
    cs.foldl (fun a c => a * 10 + (c.toNat - 48)) a < (a + 1) * 10 ^ cs.length := by
  intro cs
  induction cs with
  | nil => intro a _; simp
  | cons c t ih =>
    intro a hall
    simp only [List.all_cons, Bool.and_eq_true] at hall
    have hc : c.toNat - 48 ≤ 9 := by
      have h1 := hall.1
      simp only [pyDigit, Bool.and_eq_true, decide_eq_true_eq] at h1
      omega
    have h2 := ih (a * 10 + (c.toNat - 48)) hall.2
    simp only [List.foldl_cons, List.length_cons]
    calc List.foldl (fun a c => a * 10 + (c.toNat - 48)) (a * 10 + (c.toNat - 48)) t
        < (a * 10 + (c.toNat - 48) + 1) * 10 ^ t.length := h2
      _ ≤ ((a + 1) * 10) * 10 ^ t.length :=
          Nat.mul_le_mul_right _ (by omega)
      _ = (a + 1) * 10 ^ (t.length + 1) := by rw [pow_succ]; ring

theorem digitsToNat_lt {cs : List Char} (h : cs.all pyDigit = true) :
    digitsToNat cs < 10 ^ cs.length := by
  have h2 := digitsToNat_aux_lt cs 0 h
  simpa [digitsToNat] using h2

theorem natDigitsAux_length : ∀ (fuel n k : Nat) (acc : List Char), n ≤ fuel → n < 10 ^ k →
    (natDigitsAux fuel n acc).length ≤ k + acc.length := by
  intro fuel
  induction fuel with
  | zero =>
    intro n k acc _ _
    simp [natDigitsAux]
  | succ f ih =>
    intro n k acc hle hlt
    cases n with
    | zero => simp [natDigitsAux]
    | succ m =>
      show (natDigitsAux f ((m + 1) / 10) (digitChar10 ((m + 1) % 10) :: acc)).length ≤
        k + acc.length
      cases k with
      | zero => simp at hlt
      | succ k' =>
        have hd : (m + 1) / 10 ≤ f := by
          have h3 := Nat.div_lt_self (Nat.succ_pos m) (by norm_num : 1 < 10)
          omega
        have hk : (m + 1) / 10 < 10 ^ k' := by
          rw [Nat.div_lt_iff_lt_mul (by norm_num : 0 < 10)]
          calc m + 1 < 10 ^ (k' + 1) := hlt
            _ = 10 ^ k' * 10 := by rw [pow_succ]
        have h4 := ih ((m + 1) / 10) k' (digitChar10 ((m + 1) % 10) :: acc) hd hk
        simp only [List.length_cons] at h4
        omega

theorem pyDigit_digitChar10 (d : Nat) : pyDigit (digitChar10 d) = true := by
  unfold digitChar10
  split_ifs <;> decide

theorem natDigitsAux_digits : ∀ (fuel n : Nat) (acc : List Char), acc.all pyDigit = true →
    (natDigitsAux fuel n acc).all pyDigit = true := by
  intro fuel
  induction fuel with
  | zero => intro n acc h; exact h
  | succ f ih =>
    intro n acc h
    cases n with
    | zero => exact h
    | succ m =>
      show (natDigitsAux f ((m + 1) / 10) (digitChar10 ((m + 1) % 10) :: acc)).all pyDigit = true
      exact ih _ _ (by simp [List.all_cons, h, pyDigit_digitChar10])

theorem fmtPad_length {w n : Nat} (h : n < 10 ^ w) : (fmtPad w n).length = w := by
  have hlen : (natDigits n).length ≤ w := by
    have h2 := natDigitsAux_length n n w [] (le_refl n) h
    simpa [natDigits] using h2
  simp only [fmtPad, List.length_append, List.length_replicate]
  omega

theorem fmtPad_digits (w n : Nat) : (fmtPad w n).all pyDigit = true := by
  simp only [fmtPad, List.all_append, Bool.and_eq_true]
  constructor
  · rw [List.all_eq_true]
    intro c hc
    have h2 := List.eq_of_mem_replicate hc
    subst h2
    decide
  · exact natDigitsAux_digits n n [] rfl

theorem monthLookup_wf {name : List Char} {mm : String}
    (h : monthLookup name = some mm) : mm.data.length = 2 ∧ mm.data.all pyDigit = true := by
  unfold monthLookup at h
  cases hf : List.find? (fun p => p.1.data = name) FRENCH_MONTHS with
  | none => rw [hf] at h; exact Option.noConfusion h
  | some pr =>
    rw [hf] at h
    simp only [Option.map_some', Option.some.injEq] at h
    have hmem := List.mem_of_find?_eq_some hf
    have hall : ∀ q ∈ FRENCH_MONTHS, (Prod.snd q).data.length = 2 ∧
        (Prod.snd q).data.all pyDigit = true := by decide
    rw [← h]
    exact hall pr hmem

theorem matchIsoAt_wf {cs y m dd : List Char} (h : matchIsoAt cs = some (y, m, dd)) :
    y.length = 4 ∧ m.length = 2 ∧ dd.length = 2 ∧
    y.all pyDigit = true ∧ m.all pyDigit = true ∧ dd.all pyDigit = true := by
  unfold matchIsoAt at h
  split at h
  next a b c d h1 e f h2 g hh rest =>
    split_ifs at h with hc
    simp only [Option.some.injEq, Prod.mk.injEq] at h
    obtain ⟨rfl, rfl, rfl⟩ := h
    simp only [Bool.and_eq_true, decide_eq_true_eq, List.all_cons, List.all_nil,
      Bool.and_true] at hc
    simp only [List.all_cons, List.all_nil, Bool.and_eq_true, Bool.and_true]
    refine ⟨rfl, rfl, rfl, ?_, ?_, ?_⟩ <;> simp_all
  next =>
    exact Option.noConfusion h

theorem isoSearch_wf : ∀ {cs y m dd : List Char},
    isoSearch cs = some (y, m, dd) →
    y.length = 4 ∧ m.length = 2 ∧ dd.length = 2 ∧
    y.all pyDigit = true ∧ m.all pyDigit = true ∧ dd.all pyDigit = true := by
  intro cs
  induction cs with
  | nil => intro y m dd h; exact absurd h (by simp [isoSearch])
  | cons a t ih =>
    intro y m dd h
    rw [isoSearch] at h
    cases hm : matchIsoAt (a :: t) with
    | some r =>
      rw [hm] at h
      have hr : r = (y, m, dd) := by
        simp [Option.orElse] at h
        exact h
      exact matchIsoAt_wf (hm.trans (by rw [hr]))
    | none =>
      rw [hm] at h
      simp only [Option.orElse] at h
      exact ih h

theorem strMk_length (l : List Char) : (String.mk l).length = l.length := rfl

/-- Every `some` result of `parse_french_date` is exactly eight ASCII digits,
provided the fallback parser only produces `datetime`-representable dates
(year at most 9999, month at most 12, day at most 31 — invariants of
Python's `datetime`). -/
theorem parse_french_date_digits {fb : String → Option PyDateTime} {text : String}
    {out : String}
    (hfb : ∀ s dt, fb s = some dt → dt.year ≤ 9999 ∧ dt.month ≤ 12 ∧ dt.day ≤ 31)
    (h : parse_french_date fb text = some out) :
    out.length = 8 ∧ out.data.all pyDigit = true := by
  have hiso : ∀ t, isoOrFallback fb t = some out →
      out.length = 8 ∧ out.data.all pyDigit = true := by
    intro t hio
    rw [isoOrFallback] at hio
    cases hs : isoSearch t with
    | some r =>
      obtain ⟨y, m, dd⟩ := r
      rw [hs] at hio
      simp only [Option.some.injEq] at hio
      obtain ⟨hy, hm, hd, hyd, hmd, hdd⟩ := isoSearch_wf hs
      subst hio
      constructor
      · rw [strMk_length]
        simp [List.length_append, hy, hm, hd]
      · simp [List.all_append, hyd, hmd, hdd]
    | none =>
      rw [hs] at hio
      rcases Option.map_eq_some'.mp hio with ⟨dt, hdt, hout⟩
      obtain ⟨hy, hm, hd⟩ := hfb _ _ hdt
      subst hout
      constructor
      · rw [strftimeYmd, strMk_length]
        rw [List.length_append, List.length_append]
        rw [fmtPad_length (by omega : dt.year < 10 ^ 4),
          fmtPad_length (by omega : dt.month < 10 ^ 2),
          fmtPad_length (by omega : dt.day < 10 ^ 2)]
      · rw [strftimeYmd]
        simp [List.all_append, fmtPad_digits]
  by_cases he : text = ""
  · rw [parse_french_date, if_pos he] at h
    exact Option.noConfusion h
  · rw [parse_french_date, if_neg he] at h
    cases ht : tier1Search (pyStripL text.data) with
    | none =>
      simp only [ht] at h
      exact hiso _ h
    | some r =>
      obtain ⟨d, m, y⟩ := r
      simp only [ht] at h
      cases hml : monthLookup (pyLowerL m) with
      | none =>
        simp only [hml] at h
        exact hiso _ h
      | some mm =>
        simp only [hml, Option.some.injEq] at h
        obtain ⟨hdd, hd1, hd2, hyd, hy4⟩ := tier1Search_wf ht
        obtain ⟨hml2, hmld⟩ := monthLookup_wf hml
        have hylt : digitsToNat y < 10 ^ 4 := by
          have h2 := digitsToNat_lt hyd
          rwa [hy4] at h2
        have hdlt : digitsToNat d < 10 ^ 2 := by
          have h2 := digitsToNat_lt hdd
          have h3 : (10 : Nat) ^ d.length ≤ 10 ^ 2 :=
            Nat.pow_le_pow_right (by norm_num) hd2
          omega
        subst h
        constructor
        · rw [strMk_length, List.length_append, List.length_append,
            fmtPad_length hylt, fmtPad_length hdlt, hml2]
        · simp [List.all_append, fmtPad_digits, hmld]

/-- The `date` field of a scraped record (lines 251-277 and 377): the raw
date text found in the document (if any) is fed to `parse_french_date`, and
the record stores `date_aaaammjj or ""`.  Quantifying over `dateText` covers
every text the extraction cascade could capture. -/
def recordDateField (fb : String → Option PyDateTime) (dateText : Option String) : String :=
  match dateText with
  | none => ""
  | some t => (parse_french_date fb t).getD ""

/-- C9: the record's `date` field is either empty or exactly eight digits —
including values produced by the tier-3 generic fallback formatting an
arbitrary parsed `datetime` (year at most 9999, month at most 12, day at
most 31). -/
theorem claim_C9 : ∀ (fb : String → Option PyDateTime) (dateText : Option String),
    (∀ s dt, fb s = some dt → dt.year ≤ 9999 ∧ dt.month ≤ 12 ∧ dt.day ≤ 31) →
    recordDateField fb dateText = "" ∨
    ((recordDateField fb dateText).length = 8 ∧
      (recordDateField fb dateText).data.all pyDigit = true) := by
  intro fb dateText hfb
  cases dateText with
  | none => exact Or.inl rfl
  | some t =>
    cases hp : parse_french_date fb t with
    | none =>
      exact Or.inl (by simp [recordDateField, hp])
    | some out =>
      right
      have h2 := parse_french_date_digits hfb hp
      have he : recordDateField fb (some t) = out := by simp [recordDateField, hp]
      rw [he]
      exact h2

/-- C9 witness: a text with no tier-1/tier-2 date, resolved by the fallback
parser, yields an eight-digit value. -/
theorem claim_C9_witness :
    (recordDateField (fun _ => some ⟨2025, 8, 28⟩) (some "aucune date exploitable")).length = 8 ∧
    (recordDateField (fun _ => some ⟨2025, 8, 28⟩)
      (some "aucune date exploitable")).data.all pyDigit = true := by
  have h := claim_C9 (fun _ => some ⟨2025, 8, 28⟩) (some "aucune date exploitable")
    (by
      intro s dt hdt
      obtain rfl := Option.some.inj hdt
      exact ⟨by norm_num, by norm_num, by norm_num⟩)
  exact h.resolve_left (by decide)

/-! ## Claim C10: no calendar validation of the tier-1 day -/

/-- Gregorian leap year. -/
def isLeapYear (y : Nat) : Bool :=
  (y % 4 = 0 && y % 100 ≠ 0) || y % 400 = 0

/-- Number of days of month `m` of year `y` in the Gregorian calendar. -/
def daysInMonth (y m : Nat) : Nat :=
  if m = 2 then (if isLeapYear y then 29 else 28)
  else if m = 4 || m = 6 || m = 9 || m = 11 then 30
  else 31

/-- The triple `y-m-d` is a real calendar date. -/
def validYmd (y m d : Nat) : Bool :=
  1 ≤ m && m ≤ 12 && 1 ≤ d && d ≤ daysInMonth y m

/-- C10: the tier-1 spelled-date match performs no calendar validation of
the day: every one- or two-digit day from 1 to 99 before a table month and a
four-digit year is accepted and zero-padded, so `"99 janvier 2025"` and
`"31 février 2025"` produce the eight-digit strings `"20250199"` and
`"20250231"`, which are not valid calendar dates. -/
theorem claim_C10 :
    (∀ d ∈ Finset.Icc 1 99, parse_french_date noFb ⟨natDigits d ++ " janvier 2025".data⟩ =
      some ⟨"202501".data ++ fmtPad 2 d⟩) ∧
    parse_french_date noFb "99 janvier 2025" = some "20250199" ∧
    parse_french_date noFb "31 février 2025" = some "20250231" ∧
    validYmd 2025 1 99 = false ∧ validYmd 2025 2 31 = false := by
  refine ⟨by decide, by decide, by decide, by decide, by decide⟩

/-- C10 witness: the universally quantified part applied at day 99. -/
theorem claim_C10_witness :
    parse_french_date noFb ⟨natDigits 99 ++ " janvier 2025".data⟩ =
      some ⟨"202501".data ++ fmtPad 2 99⟩ :=
  claim_C10.1 99 (by decide)

/-! ## Claim C2: the image URL resolver `_get_img_url` (lines 32-44) -/

/-- Python truthiness for an optional string: `None` and `""` are falsy. -/
def truthy : Option String → Option String
  | some "" => none
  | x => x

/-- `tag.get(name)`: first value bound to the attribute, `None` if absent. -/
def getAttr (attrs : List (String × String)) (k : String) : Option String :=
  (attrs.find? (fun p => p.1 = k)).map Prod.snd

/-- The attribute priority list of `_get_img_url` (line 37). -/
def IMG_ATTRS : List String :=
  ["data-src", "data-lazy-src", "data-original", "src", "data-srcset"]

/-- First whitespace-separated token of `cs`, i.e. `cs.split()[0]`;
`none` models the `IndexError` raised when `split()` returns no token. -/
def firstTok (cs : List Char) : Option (List Char) :=
  let t := (cs.dropWhile pySpace).takeWhile (fun c => !pySpace c)
  if t = [] then none else some t

/-- The attribute loop of `_get_img_url`: for each attribute in priority
order, a truthy value is selected; if the attribute is `data-srcset` or the
value contains a comma, the value is replaced by
`url.split(",")[0].split()[0]` — which raises `IndexError` (modelled as
`.error ()`) when the first comma-separated candidate holds no token — and
the result is `urljoin(base_url, url.strip())` (`uj` models `urljoin`). -/
def getImgUrlGo (uj : String → String → String) (attrs : List (String × String))
    (base : String) : List String → Except Unit (Option String)
  | [] => .ok none
  | a :: rest =>
    match truthy (getAttr attrs a) with
    | none => getImgUrlGo uj attrs base rest
    | some url =>
      if a = "data-srcset" || url.data.any (fun c => c = ',') then
        match firstTok (url.data.takeWhile (fun c => !(c = ','))) with
        | none => .error ()
        | some tok => .ok (some (uj base (pyStrip ⟨tok⟩)))
      else .ok (some (uj base (pyStrip url)))

/-- Embedding of `_get_img_url` (src/bdm_scraper.py lines 32-44).  An image
element is its attribute list (`none` models a falsy `img_tag`). -/
def _get_img_url (uj : String → String → String)
    (img : Option (List (String × String))) (base : String) : Except Unit (Option String) :=
  match img with
  | none => .ok none
  | some attrs => getImgUrlGo uj attrs base IMG_ATTRS

/-- C2 evaluated at the failing inputs (code_bug evidence).  The claim —
and the spec's propagation policy — state that `_get_img_url` never raises
and returns a URL or absent for every attribute combination, including
whitespace-only values and values whose first comma-separated candidate is
empty.  The code instead raises `IndexError` from
`url.split(",")[0].split()[0]` whenever the chosen value's first
comma-separated candidate contains no whitespace-separated token, e.g.
`src=",image.jpg"` or `data-srcset=" "`; ordinary values resolve and absent
attributes yield `None`. -/
theorem claim_C2 :
    _get_img_url (fun _ u => u) (some [("src", ",image.jpg")]) "http://ex.com/a" =
      .error () ∧
    _get_img_url (fun _ u => u) (some [("data-srcset", " ")]) "http://ex.com/a" =
      .error () ∧
    _get_img_url (fun _ u => u) (some [("src", "img.png")]) "http://ex.com/a" =
      .ok (some "img.png") ∧
    _get_img_url (fun _ u => u) (some [("data-srcset", "a.jpg 480w, b.jpg 800w")])
      "http://ex.com/a" = .ok (some "a.jpg") ∧
    _get_img_url (fun _ u => u) (some []) "http://ex.com/a" = .ok none ∧
    _get_img_url (fun _ u => u) none "http://ex.com/a" = .ok none := by
  refine ⟨rfl, rfl, rfl, rfl, rfl, rfl⟩

/-! ## Claim C5: the persistence adapter `save_article_to_mongo` (lines 393-411) -/

/-- The record passed to persistence: the `url` key (possibly absent) and
the remaining fields, which persistence treats opaquely.  An article dict
that is empty (falsy) has in particular no `url` key, so the source's
`not article_dict` test is subsumed by the `url`-absent case. -/
structure PyArticleDict where
  url : Option String
  payload : List (String × String)
deriving DecidableEq

inductive SaveErr where
  | valueError
  | storeError
deriving DecidableEq

/-- Embedding of `save_article_to_mongo` (lines 393-411).  `store u d`
models `articles_col.update_one({"url": u}, {"$set": d}, upsert=True)`
(the Boolean stands for the acknowledgement); the second component of the
result is the list of store calls performed.  Validation
(`ValueError`, modelled as `SaveErr.valueError`) happens before any store
access; a store exception is re-raised (`SaveErr.storeError`) after the
source's diagnostic print. -/
def save_article_to_mongo (store : String → PyArticleDict → Except Unit Bool)
    (article : Option PyArticleDict) : Except SaveErr Bool × List (String × PyArticleDict) :=
  match article with
  | none => (.error .valueError, [])
  | some d =>
    match d.url with
    | none => (.error .valueError, [])
    | some u =>
      if u = "" then (.error .valueError, [])
      else
        match store u d with
        | .ok ack => (.ok ack, [(u, d)])
        | .error _ => (.error .storeError, [(u, d)])

/-- C5: persistence raises its validation error exactly when the record is
absent or its `url` is absent or empty, performing no store call in that
case; otherwise it performs exactly one upsert keyed on the record's `url`,
passes a successful acknowledgement through, and re-raises store failures. -/
theorem claim_C5 : ∀ (store : String → PyArticleDict → Except Unit Bool)
    (article : Option PyArticleDict),
    ((save_article_to_mongo store article).1 = .error .valueError ↔
      (article = none ∨ article.bind PyArticleDict.url = none ∨
        article.bind PyArticleDict.url = some "")) ∧
    ((save_article_to_mongo store article).1 = .error .valueError →
      (save_article_to_mongo store article).2 = []) ∧
    (∀ d u, article = some d → d.url = some u → u ≠ "" →
      (save_article_to_mongo store article).2 = [(u, d)] ∧
      (∀ ack, store u d = .ok ack → (save_article_to_mongo store article).1 = .ok ack) ∧
      (∀ e, store u d = .error e →
        (save_article_to_mongo store article).1 = .error .storeError)) := by
  intro store article
  cases article with
  | none => exact ⟨by simp [save_article_to_mongo], fun _ => rfl, by intro d u h; cases h⟩
  | some d =>
    cases hu : d.url with
    | none =>
      refine ⟨by simp [save_article_to_mongo, hu], by intro _; simp [save_article_to_mongo, hu], ?_⟩
      intro d' u hd' hu'
      obtain rfl := Option.some.inj hd'
      rw [hu] at hu'
      exact absurd hu' (by simp)
    | some u =>
      by_cases he : u = ""
      · subst he
        refine ⟨by simp [save_article_to_mongo, hu], ?_, ?_⟩
        · intro _; simp [save_article_to_mongo, hu]
        · intro d' u' hd' hu' hne
          obtain rfl := Option.some.inj hd'
          rw [hu] at hu'
          obtain rfl := Option.some.inj hu'
          exact absurd rfl hne
      · have hrun : save_article_to_mongo store (some d) =
            (match store u d with
             | .ok ack => (Except.ok ack, [(u, d)])
             | .error _ => (Except.error SaveErr.storeError, [(u, d)])) := by
          simp only [save_article_to_mongo, hu]
          rw [if_neg he]
        refine ⟨?_, ?_, ?_⟩
        · constructor
          · intro hv
            rw [hrun] at hv
            cases hst : store u d with
            | ok ack => rw [hst] at hv; exact absurd hv (by simp)
            | error e => rw [hst] at hv; simp at hv
          · intro hv
            rcases hv with hv | hv | hv
            · exact Option.noConfusion hv
            · simp [hu] at hv
            · simp [hu] at hv; exact absurd hv he
        · intro hv
          exfalso
          rw [hrun] at hv
          cases hst : store u d with
          | ok ack => rw [hst] at hv; exact absurd hv (by simp)
          | error e => rw [hst] at hv; simp at hv
        · intro d' u' hd' hu' _
          obtain rfl := Option.some.inj hd'
          rw [hu] at hu'
          obtain rfl := Option.some.inj hu'
          refine ⟨?_, ?_, ?_⟩
          · rw [hrun]
            cases hst : store u d with
            | ok ack => rfl
            | error e => rfl
          · intro ack hst; rw [hrun, hst]
          · intro e hst; rw [hrun, hst]

/-- C5 witness: a successful upsert and an empty-url validation failure. -/
theorem claim_C5_witness :
    (save_article_to_mongo (fun _ _ => .ok true) (some ⟨some "http://a", []⟩)).1 =
      .ok true ∧
    (save_article_to_mongo (fun _ _ => .error ()) (some ⟨some "", []⟩)).1 =
      .error .valueError := by
  constructor
  · exact ((claim_C5 (fun _ _ => .ok true) (some ⟨some "http://a", []⟩)).2.2
      ⟨some "http://a", []⟩ "http://a" rfl rfl (by decide)).2.1 true rfl
  · exact ((claim_C5 (fun _ _ => .error ()) (some ⟨some "", []⟩)).1).mpr
      (Or.inr (Or.inr rfl))

/-! ## Claims C6 and C7: the query layer (lines 415-482) -/

/-- Lexicographic comparison of strings by code point, the model of the
string ordering Mongo applies to `$gte`/`$lte` and `sort` (byte-wise
comparison of UTF-8 strings, which agrees with code-point order; the values
compared here are fixed-width digit strings and ISO timestamps). -/
def listLeB : List Char → List Char → Bool
  | [], _ => true
  | _ :: _, [] => false
  | a :: s, b :: t =>
    if a.toNat < b.toNat then true
    else if b.toNat < a.toNat then false
    else listLeB s t

def strLeB (a b : String) : Bool := listLeB a.data b.data

theorem listLeB_total : ∀ (a b : List Char), listLeB a b = true ∨ listLeB b a = true := by
  intro a
  induction a with
  | nil => intro b; exact Or.inl rfl
  | cons x s ih =>
    intro b
    cases b with
    | nil => exact Or.inr rfl
    | cons y t =>
      by_cases h1 : x.toNat < y.toNat
      · left; unfold listLeB; rw [if_pos h1]
      · by_cases h2 : y.toNat < x.toNat
        · right; unfold listLeB; rw [if_pos h2]
        · rcases ih t with h | h
          · left; unfold listLeB; rw [if_neg h1, if_neg h2]; exact h
          · right; unfold listLeB; rw [if_neg h2, if_neg h1]; exact h

theorem listLeB_trans : ∀ (a b c : List Char), listLeB a b = true → listLeB b c = true →
    listLeB a c = true := by
  intro a
  induction a with
  | nil => intro b c _ _; rfl
  | cons x s ih =>
    intro b c hab hbc
    cases b with
    | nil => simp [listLeB] at hab
    | cons y t =>
      cases c with
      | nil => simp [listLeB] at hbc
      | cons z u =>
        unfold listLeB at hab hbc ⊢
        by_cases h1 : x.toNat < y.toNat <;> by_cases h2 : y.toNat < x.toNat <;>
          by_cases h3 : y.toNat < z.toNat <;> by_cases h4 : z.toNat < y.toNat <;>
            by_cases h5 : x.toNat < z.toNat <;> by_cases h6 : z.toNat < x.toNat <;>
              simp only [h1, h2, h3, h4, h5, h6, if_pos, if_neg, if_true, if_false] at hab hbc ⊢ <;>
                first
                  | rfl
                  | omega
                  | exact (Bool.false_ne_true hab).elim
                  | exact (Bool.false_ne_true hbc).elim
                  | exact ih t u hab hbc

/-- A stored article document, with the fields the two query functions
filter or sort on.  The schema (spec §3) has no `category` field: the
source's extra `{"category": ...}` clause in `get_articles_by_category`
can therefore never match (a Mongo `$regex` on an absent field matches no
document), which `catFieldMatch` records. -/
structure ArticleDoc where
  url : String
  title : String
  subcategory : String
  author : String
  date : String
  scraped_at : String
deriving DecidableEq

/-- Mongo `{"field": {"$regex": "^" + re.escape(x) + "$", "$options": "i"}}`:
the pattern is fully escaped and anchored on both sides, so it matches
exactly the documents whose whole field equals `x` up to case. -/
def ciEq (a b : String) : Bool := pyLower a = pyLower b

/-- `pat` occurs as a contiguous sublist of `hay`. -/
def containsSub (pat : List Char) : List Char → Bool
  | [] => List.isPrefixOf pat []
  | c :: t => List.isPrefixOf pat (c :: t) || containsSub pat t

/-- Mongo `{"field": {"$regex": re.escape(x), "$options": "i"}}`: the
escaped, unanchored pattern matches any document whose field contains `x`
as a substring, up to case. -/
def ciContains (hay pat : String) : Bool :=
  containsSub (pyLowerL pat.data) (pyLowerL hay.data)

/-- The `{"category": {"$regex": ...}}` disjunct of the source's `$or`:
documents have no `category` field, so it never matches. -/
def catFieldMatch (_r : ArticleDoc) (_c : String) : Bool := false

/-- The filter document built by `get_articles_by_category` (lines 420-433),
as a predicate on documents.  The four cases mirror the source: both
parameters truthy gives `{"$and": [{"$or": [...]}, subcat]}`; only
`category` gives the `$or`; only `subcategory` gives the single condition;
neither gives the empty filter, which matches everything. -/
def byCategoryMatch (category subcategory : Option String) (r : ArticleDoc) : Bool :=
  match truthy category, truthy subcategory with
  | some c, some s2 => (ciEq r.subcategory c || catFieldMatch r c) && ciEq r.subcategory s2
  | some c, none => ciEq r.subcategory c || catFieldMatch r c
  | none, some s2 => ciEq r.subcategory s2
  | none, none => true

/-- Server-side `find(query).limit(limit).sort(key, -1)`: filter, sort by
the key descending (ties in unspecified order, modelled by insertion sort),
then cap.  PyMongo applies `sort` and `limit` to the cursor before
execution, so the cap happens after the sort regardless of chaining
order. -/
def sortByKeyDesc (key : ArticleDoc → String) (l : List ArticleDoc) : List ArticleDoc :=
  List.insertionSort (fun a b => strLeB (key b) (key a) = true) l

/-- Embedding of `get_articles_by_category` (lines 415-440), ordered by
`scraped_at` descending and capped at `limit`. -/
def get_articles_by_category (store : List ArticleDoc)
    (category subcategory : Option String) (limit : Nat) : List ArticleDoc :=
  (sortByKeyDesc (fun r => r.scraped_at)
    (store.filter (byCategoryMatch category subcategory))).take limit

theorem byCategoryMatch_spec {category subcategory : Option String} {r : ArticleDoc}
    (h : byCategoryMatch category subcategory r = true) :
    (∀ c, truthy category = some c → ciEq r.subcategory c = true) ∧
    (∀ s2, truthy subcategory = some s2 → ciEq r.subcategory s2 = true) := by
  unfold byCategoryMatch at h
  constructor
  · intro c hc
    rw [hc] at h
    cases hs : truthy subcategory with
    | none => rw [hs] at h; simpa [catFieldMatch] using h
    | some s2 =>
      rw [hs] at h
      simp only [catFieldMatch, Bool.or_false, Bool.and_eq_true] at h
      exact h.1
  · intro s2 hs
    rw [hs] at h
    cases hc : truthy category with
    | none => rw [hc] at h; exact h
    | some c =>
      rw [hc] at h
      simp only [Bool.and_eq_true] at h
      exact h.2

theorem sortByKeyDesc_sorted (key : ArticleDoc → String) (l : List ArticleDoc) :
    List.Sorted (fun a b => strLeB (key b) (key a) = true) (sortByKeyDesc key l) := by
  haveI : IsTotal ArticleDoc (fun a b => strLeB (key b) (key a) = true) :=
    ⟨fun a b => listLeB_total (key b).data (key a).data⟩
  haveI : IsTrans ArticleDoc (fun a b => strLeB (key b) (key a) = true) :=
    ⟨fun a b c h1 h2 => listLeB_trans (key c).data (key b).data (key a).data h2 h1⟩
  exact List.sorted_insertionSort _ l

theorem sortByKeyDesc_perm (key : ArticleDoc → String) (l : List ArticleDoc) :
    (sortByKeyDesc key l).Perm l :=
  List.perm_insertionSort _ l

/-- Sample documents for the anchored-equality facts of C6 and the date
range facts of C7. -/
def iaDoc : ArticleDoc :=
  ⟨"http://ex.com/1", "titre", "IA", "alice", "20250101", "2025-01-01T00:00:00"⟩

def iaSubstrDoc : ArticleDoc :=
  ⟨"http://ex.com/2", "titre", "IA generative", "bob", "20250102", "2025-01-02T00:00:00"⟩

def docSept : ArticleDoc :=
  ⟨"http://ex.com/3", "titre", "IA", "alice", "20250901", "2025-09-02T00:00:00"⟩

def docAug : ArticleDoc :=
  ⟨"http://ex.com/4", "titre", "IA", "alice", "20250815", "2025-08-16T00:00:00"⟩

/-- C6: `get_articles_by_category` filters by anchored whole-field
case-insensitive equality against `subcategory` for either parameter (never
by substring: a document whose subcategory merely contains "IA" does not
match `subcategory="IA"`), omits empty/absent parameters (both absent
returns everything, sorted and capped), and returns results ordered by
`scraped_at` descending, at most `limit` of them. -/
theorem claim_C6 : ∀ (store : List ArticleDoc) (category subcategory : Option String)
    (limit : Nat),
    (∀ r ∈ get_articles_by_category store category subcategory limit,
      (∀ c, truthy category = some c → ciEq r.subcategory c = true) ∧
      (∀ s2, truthy subcategory = some s2 → ciEq r.subcategory s2 = true)) ∧
    (truthy category = none → truthy subcategory = none →
      get_articles_by_category store category subcategory limit =
        (sortByKeyDesc (fun r => r.scraped_at) store).take limit) ∧
    List.Sorted (fun a b => strLeB b.scraped_at a.scraped_at = true)
      (get_articles_by_category store category subcategory limit) ∧
    (get_articles_by_category store category subcategory limit).length ≤ limit ∧
    byCategoryMatch none (some "IA") iaDoc = true ∧
    byCategoryMatch none (some "IA") iaSubstrDoc = false ∧
    byCategoryMatch none (some "ia") iaDoc = true ∧
    byCategoryMatch (some "ia") none iaDoc = true := by
  intro store category subcategory limit
  refine ⟨?_, ?_, ?_, ?_, by decide, by decide, by decide, by decide⟩
  · intro r hr
    have h1 : r ∈ sortByKeyDesc (fun r => r.scraped_at)
        (store.filter (byCategoryMatch category subcategory)) :=
      List.mem_of_mem_take hr
    have h2 : r ∈ store.filter (byCategoryMatch category subcategory) :=
      (sortByKeyDesc_perm _ _).mem_iff.mp h1
    exact byCategoryMatch_spec (List.mem_filter.mp h2).2
  · intro hc hs
    have hfil : store.filter (byCategoryMatch category subcategory) = store := by
      apply List.filter_eq_self.mpr
      intro r _
      unfold byCategoryMatch
      rw [hc, hs]
    rw [get_articles_by_category, hfil]
  · exact List.Pairwise.sublist (List.take_sublist _ _)
      (sortByKeyDesc_sorted (fun r => r.scraped_at) _)
  · exact List.length_take_le _ _

/-- C6 witness: with a two-document store and `subcategory="IA"`, the
returned document's subcategory equals "IA" case-insensitively. -/
theorem claim_C6_witness :
    iaDoc ∈ get_articles_by_category [iaDoc, iaSubstrDoc] none (some "IA") 5 ∧
    ciEq iaDoc.subcategory "IA" = true := by
  have hm : iaDoc ∈ get_articles_by_category [iaDoc, iaSubstrDoc] none (some "IA") 5 := by
    decide
  exact ⟨hm, ((claim_C6 [iaDoc, iaSubstrDoc] none (some "IA") 5).1 iaDoc hm).2 "IA" rfl⟩

/-- The filter document built by `search_articles` (lines 449-475), as a
predicate.  Every provided (truthy) filter is conjoined: case-insensitive
substring on `title` and `author`, inclusive string range `$gte`/`$lte` on
`date` (string comparison), case-insensitive substring on `subcategory` for
both the `category` parameter (via a one-element `$or`) and the
`subcategory` parameter (via `$and` or a direct key). -/
def searchMatch (titleSub author dateStart dateEnd category subcategory : Option String)
    (r : ArticleDoc) : Bool :=
  (match truthy titleSub with | some p => ciContains r.title p | none => true) &&
  (match truthy author with | some p => ciContains r.author p | none => true) &&
  (match truthy dateStart with | some p => strLeB p r.date | none => true) &&
  (match truthy dateEnd with | some p => strLeB r.date p | none => true) &&
  (match truthy category with | some p => ciContains r.subcategory p | none => true) &&
  (match truthy subcategory with | some p => ciContains r.subcategory p | none => true)

/-- Embedding of `search_articles` (lines 443-482): filter, order by `date`
descending, cap at `limit`. -/
def search_articles (store : List ArticleDoc)
    (titleSub author dateStart dateEnd category subcategory : Option String)
    (limit : Nat) : List ArticleDoc :=
  (sortByKeyDesc (fun r => r.date)
    (store.filter (searchMatch titleSub author dateStart dateEnd category subcategory))).take
    limit

/-- C7: `search_articles` ANDs all provided filters — case-insensitive
substring on `title`, `author` and `subcategory`, and an inclusive
string-lexicographic range `[date_start, date_end]` on the eight-digit
`date` — orders by `date` descending and caps at `limit`; with
`date_start="20250101"` and `date_end="20250831"` a record dated
`"20250901"` is excluded and one dated `"20250815"` is included. -/
theorem claim_C7 : ∀ (store : List ArticleDoc)
    (titleSub author dateStart dateEnd category subcategory : Option String) (limit : Nat),
    (∀ r ∈ search_articles store titleSub author dateStart dateEnd category subcategory limit,
      (∀ p, truthy titleSub = some p → ciContains r.title p = true) ∧
      (∀ p, truthy author = some p → ciContains r.author p = true) ∧
      (∀ p, truthy dateStart = some p → strLeB p r.date = true) ∧
      (∀ p, truthy dateEnd = some p → strLeB r.date p = true) ∧
      (∀ p, truthy subcategory = some p → ciContains r.subcategory p = true)) ∧
    List.Sorted (fun a b => strLeB b.date a.date = true)
      (search_articles store titleSub author dateStart dateEnd category subcategory limit) ∧
    (search_articles store titleSub author dateStart dateEnd category
      subcategory limit).length ≤ limit ∧
    searchMatch none none (some "20250101") (some "20250831") none none docSept = false ∧
    searchMatch none none (some "20250101") (some "20250831") none none docAug = true := by
  intro store titleSub author dateStart dateEnd category subcategory limit
  refine ⟨?_, ?_, ?_, by decide, by decide⟩
  · intro r hr
    have h1 : r ∈ sortByKeyDesc (fun r => r.date)
        (store.filter (searchMatch titleSub author dateStart dateEnd category subcategory)) :=
      List.mem_of_mem_take hr
    have h2 : r ∈ store.filter (searchMatch titleSub author dateStart dateEnd
        category subcategory) :=
      (sortByKeyDesc_perm _ _).mem_iff.mp h1
    have h3 := (List.mem_filter.mp h2).2
    unfold searchMatch at h3
    simp only [Bool.and_eq_true] at h3
    obtain ⟨⟨⟨⟨⟨ht, ha⟩, hds⟩, hde⟩, _hc⟩, hs⟩ := h3
    refine ⟨?_, ?_, ?_, ?_, ?_⟩
    · intro p hp; rw [hp] at ht; exact ht
    · intro p hp; rw [hp] at ha; exact ha
    · intro p hp; rw [hp] at hds; exact hds
    · intro p hp; rw [hp] at hde; exact hde
    · intro p hp; rw [hp] at hs; exact hs
  · exact List.Pairwise.sublist (List.take_sublist _ _)
      (sortByKeyDesc_sorted (fun r => r.date) _)
  · exact List.length_take_le _ _

/-- C7 witness: a search over a two-document store with the spec's date
range returns the August document and satisfies the range bounds. -/
theorem claim_C7_witness :
    docAug ∈ search_articles [docSept, docAug] none none (some "20250101")
      (some "20250831") none none 5 ∧
    strLeB "20250101" docAug.date = true ∧ strLeB docAug.date "20250831" = true := by
  have hm : docAug ∈ search_articles [docSept, docAug] none none (some "20250101")
      (some "20250831") none none 5 := by decide
  have h := (claim_C7 [docSept, docAug] none none (some "20250101") (some "20250831")
    none none 5).1 docAug hm
  exact ⟨hm, h.2.2.1 "20250101" rfl, h.2.2.2.1 "20250831" rfl⟩

/-! ## The parsed HTML document model, for claims C3 and C4

An HTML tree in first-child/next-sibling form: `hnil` ends a sibling list,
`htext` is a text node, `elem` is a tag with attributes, first child and
next sibling.  A document is the forest of the soup's top-level nodes.
BeautifulSoup's multi-valued `class` attribute is modelled as its literal
string value (the regexes involved are alternations of space-free literals,
for which matching the joined string and matching each token agree). -/
inductive HN where
  | hnil : HN
  | htext : String → HN → HN
  | elem : String → List (String × String) → HN → HN → HN
deriving DecidableEq

def tagOf : HN → String
  | .elem t _ _ _ => t
  | _ => ""

def attrsOf : HN → List (String × String)
  | .elem _ a _ _ => a
  | _ => []

def childOf : HN → HN
  | .elem _ _ ch _ => ch
  | _ => .hnil

/-- Concatenated text of a forest (a node and its following siblings):
`get_text()` with its default empty separator. -/
def textOfF : HN → List Char
  | .hnil => []
  | .htext s sib => s.data ++ textOfF sib
  | .elem _ _ ch sib => textOfF ch ++ textOfF sib

/-- `node.get_text()`: the text of the node's own subtree. -/
def textOfNode : HN → List Char
  | .hnil => []
  | .htext s _ => s.data
  | .elem _ _ ch _ => textOfF ch

/-- All element nodes of a forest in document (pre-)order, each paired with
its ancestor chain (nearest ancestor first, on top of the base chain
`anc`).  This is the search space of `find`/`find_all`, and the chain is
what `find_parent` walks. -/
def elemsWithAnc : List HN → HN → List (List HN × HN)
  | anc, .htext _ sib => elemsWithAnc anc sib
  | anc, n@(.elem _ _ ch sib) =>
    (anc, n) :: (elemsWithAnc (n :: anc) ch ++ elemsWithAnc anc sib)
  | _, .hnil => []

/-- `soup.find(...)`/`container.find(...)`: first element of the pre-order
enumeration satisfying the predicate. -/
def findElemWithAnc (p : HN → Bool) (anc : List HN) (f : HN) : Option (List HN × HN) :=
  (elemsWithAnc anc f).find? (fun pr => p pr.2)

def classAttr (n : HN) : Option String := getAttr (attrsOf n) "class"

/-- `class_=re.compile(r'(p₁|p₂|…)', re.I)`: the element has a `class`
attribute whose value contains one of the literal alternatives,
case-insensitively. -/
def classMatches (pats : List String) (n : HN) : Bool :=
  match classAttr n with
  | some s => pats.any (fun pat => ciContains s pat)
  | none => false

/-- Alternatives of the article-container class regex (line 131). -/
def containerPats : List String :=
  ["entry-content", "post", "article", "article-wrapper", "single-post"]

/-- Article container resolution (lines 128-135): `<article>`, else a `div`
whose class matches the container pattern, else `<main>`, else `<body>`;
`none` when the document has none of these. -/
def resolveArticle (doc : HN) : Option (List HN × HN) :=
  match findElemWithAnc (fun n => tagOf n = "article") [] doc with
  | some r => some r
  | none =>
    match findElemWithAnc (fun n => tagOf n = "div" && classMatches containerPats n) [] doc with
    | some r => some r
    | none =>
      match findElemWithAnc (fun n => tagOf n = "main") [] doc with
      | some r => some r
      | none => findElemWithAnc (fun n => tagOf n = "body") [] doc

/-- Alternatives of the content sub-container class regex (line 304). -/
def contentPats : List String :=
  ["entry-content", "post-content", "article-content", "content", "post-body"]

/-- The content sub-container (lines 303-306): first `div`/`section`
descendant of the article container whose class matches, defaulting to the
container itself. -/
def contentAreaOf (art : List HN × HN) : List HN × HN :=
  match (elemsWithAnc (art.2 :: art.1) (childOf art.2)).find?
      (fun pr => (tagOf pr.2 = "div" || tagOf pr.2 = "section") &&
        classMatches contentPats pr.2) with
  | some r => r
  | none => art

/-- Alternatives of the navigation/ads/metadata class regex (line 312). -/
def skipPats : List String := ["nav", "sidebar", "ad", "meta", "social"]

/-- The skip test of line 312: `elem.find_parent(['nav', 'aside'])` or
`elem.find_parent(class_=...)` — some ancestor is a `nav`/`aside` tag or
has a class matching the skip pattern. -/
def skipElem (anc : List HN) : Bool :=
  anc.any (fun x => tagOf x = "nav" || tagOf x = "aside") ||
  anc.any (fun x => classMatches skipPats x)

def contentTags : List String := ["p", "h2", "h3", "h4", "h5", "h6"]

/-- The paragraph loop of lines 308-320: iterate `p`,`h2`-`h6` descendants
of the content area in document order, skip nav/ads-nested elements, clean
the text, keep it only if non-empty and longer than ten characters;
each kept entry records the tag name and the cleaned text. -/
def keptParas (area : List HN × HN) : List (String × List Char) :=
  ((elemsWithAnc (area.2 :: area.1) (childOf area.2)).filter
    (fun pr => contentTags.contains (tagOf pr.2))).filterMap
    (fun pr =>
      if skipElem pr.1 then none
      else
        let txt := cleanTextL (textOfNode pr.2)
        if txt ≠ [] && decide (10 < txt.length) then some (tagOf pr.2, txt) else none)

/-- Line 317-320: heading texts (tag starting with `h`) are wrapped in a
leading and trailing newline. -/
def wrapPara (p : String × List Char) : List Char :=
  match p.1.data with
  | 'h' :: _ => '\n' :: (p.2 ++ ['\n'])
  | _ => p.2

/-- `"\n\n".join`. -/
def joinBlank : List (List Char) → List Char
  | [] => []
  | [x] => x
  | x :: y :: r => x ++ '\n' :: '\n' :: joinBlank (y :: r)

/-- State machine for `re.sub(r'\n\x7b3,\x7d', '\n\n', ·)`: a maximal run of
`k ≥ 3` newlines becomes exactly two, shorter runs are kept. -/
def collapseNlAux : Nat → List Char → List Char
  | k, [] => List.replicate (min k 2) '\n'
  | k, c :: t =>
    if c = '\n' then collapseNlAux (k + 1) t
    else List.replicate (min k 2) '\n' ++ c :: collapseNlAux 0 t

def collapseNlL (cs : List Char) : List Char := collapseNlAux 0 cs

/-- Embedding of the content assembly of `scrape_article`
(src/bdm_scraper.py lines 300-324): empty when no article container
resolves; otherwise the kept texts are wrapped/joined, the joined text is
stripped (`"\n\n".join(paragraphs).strip()`), and newline runs of three or
more are collapsed to two. -/
def scrapeContent (doc : HN) : String :=
  match resolveArticle doc with
  | none => ""
  | some art =>
    ⟨collapseNlL (pyStripL (joinBlank ((keptParas (contentAreaOf art)).map wrapPara)))⟩

/-- The content assembly exactly as the claim words it — join with a blank
line, wrap headings, collapse newline runs — with no strip of the joined
text.  Used to compare the claim against the source. -/
def specContentAssembly (doc : HN) : String :=
  match resolveArticle doc with
  | none => ""
  | some art =>
    ⟨collapseNlL (joinBlank ((keptParas (contentAreaOf art)).map wrapPara))⟩

example : collapseNlL "a\n\n\n\nb\n\nc".data = "a\n\nb\n\nc".data := by decide
example : joinBlank ["ab".data, "cd".data] = "ab\n\ncd".data := by decide

/-- A document whose first kept element is a heading: `<article>` holding an
`<h2>` and a `<p>`. -/
def docHeadingFirst : HN :=
  .elem "article" []
    (.elem "h2" [] (.htext "Heading text 1" .hnil)
      (.elem "p" [] (.htext "This is a long paragraph." .hnil) .hnil))
    .hnil

/-- A full exercise of the content rules: a matching content sub-container
holding a kept paragraph, a nav-nested paragraph (skipped), a short
paragraph (skipped), a heading (wrapped), a sidebar-nested paragraph
(skipped) and a final kept paragraph. -/
def docContentFull : HN :=
  .elem "body" []
    (.elem "article" []
      (.elem "div" [("class", "entry-content")]
        (.elem "p" [] (.htext "This paragraph stays in the content." .hnil)
          (.elem "nav" []
            (.elem "p" [] (.htext "Navigation paragraph to be skipped." .hnil) .hnil)
            (.elem "p" [] (.htext "tiny" .hnil)
              (.elem "h2" [] (.htext "Section heading here." .hnil)
                (.elem "div" [("class", "sidebar")]
                  (.elem "p" [] (.htext "Sidebar paragraph to be skipped." .hnil) .hnil)
                  (.elem "p" [] (.htext "Final paragraph of the story." .hnil) .hnil))))))
        .hnil)
      .hnil)
    .hnil

/-- A document with no article container at all (no `article`, no matching
`div`, no `main`, no `body`). -/
def docNoContainer : HN := .elem "span" [] (.htext "orphan" .hnil) .hnil

/-- C3 counterexample.  The claim describes the content as the
wrap/join/collapse of the kept texts, with no trim: on a document whose
first kept element is a heading the code's `.strip()` removes the heading's
leading padding newline, so the code differs from the claimed assembly. -/
theorem claim_C3_counterexample :
    scrapeContent docHeadingFirst = "Heading text 1\n\nThis is a long paragraph." ∧
    specContentAssembly docHeadingFirst = "\nHeading text 1\n\nThis is a long paragraph." ∧
    scrapeContent docHeadingFirst ≠ specContentAssembly docHeadingFirst := by
  refine ⟨by decide, by decide, by decide⟩

/-- C3 (amended): if no article container is resolved the content is empty;
otherwise the content is assembled from the `p`/`h2`-`h6` elements of the
content sub-container in document order — skipping elements nested under
`nav`/`aside` or under a class matching nav/sidebar/ad/meta/social, and
elements whose normalized text is at most 10 characters — the kept texts
joined by a blank line with heading texts wrapped in a leading and trailing
newline, the joined text **stripped of leading and trailing whitespace**,
and runs of 3 or more newlines collapsed to exactly 2. -/
theorem claim_C3 :
    (∀ doc : HN, resolveArticle doc = none → scrapeContent doc = "") ∧
    (∀ doc : HN, scrapeContent doc =
      (match resolveArticle doc with
       | none => ""
       | some art =>
         ⟨collapseNlL (pyStripL (joinBlank ((keptParas (contentAreaOf art)).map wrapPara)))⟩)) ∧
    scrapeContent docContentFull =
      "This paragraph stays in the content.\n\nSection heading here.\n\nFinal paragraph of the story." ∧
    scrapeContent docNoContainer = "" := by
  refine ⟨?_, fun _ => rfl, by decide, by decide⟩
  intro doc h
  rw [scrapeContent, h]

/-- C3 witness: the no-container clause applied to a concrete document with
no resolvable article container, discharging its hypothesis. -/
theorem claim_C3_witness : scrapeContent docNoContainer = "" :=
  claim_C3.1 docNoContainer (by decide)

/-! ## Claim C4: the in-body image rules (lines 326-367) -/

/-- Parse the digit part of `int()` input after the optional sign: digits
with single underscores allowed between digits (Python's numeric literal
grouping), accumulating the value. -/
def digitsUSAux : Nat → List Char → Option Nat
  | acc, [] => some acc
  | acc, '_' :: c :: t =>
    if pyDigit c then digitsUSAux (acc * 10 + (c.toNat - 48)) t else none
  | acc, c :: t =>
    if pyDigit c then digitsUSAux (acc * 10 + (c.toNat - 48)) t else none

/-- Python `int(str)`: optional surrounding whitespace, optional single
sign, at least one digit (Unicode digits beyond ASCII are not modelled);
`none` models the `ValueError` the source catches. -/
def pyInt (s : String) : Option Int :=
  match pyStripL s.data with
  | [] => none
  | '+' :: c :: rest =>
    if pyDigit c then (digitsUSAux 0 (c :: rest)).map Int.ofNat else none
  | '-' :: c :: rest =>
    if pyDigit c then (digitsUSAux 0 (c :: rest)).map (fun n => -(Int.ofNat n)) else none
  | c :: rest =>
    if pyDigit c then (digitsUSAux 0 (c :: rest)).map Int.ofNat else none

example : pyInt "50" = some 50 := by decide
example : pyInt " 150 " = some 150 := by decide
example : pyInt "abc" = none := by decide
example : pyInt "-3" = some (-3) := by decide
example : pyInt "" = none := by decide

/-- One `<img>` of the content area as the image loop sees it: its
attributes, and the text of the first `figcaption` of its nearest `figure`
ancestor when both exist. -/
structure ImgItem where
  attrs : List (String × String)
  figcap : Option String
deriving DecidableEq

structure ImgEntry where
  url : String
  caption : String
deriving DecidableEq

/-- The size filter of lines 340-347:
`if width and height: try: if int(width) < 100 or int(height) < 100:
continue except (ValueError, TypeError): pass`.
Both attributes truthy; `int(width)` failing aborts the test (kept);
`int(width) < 100` short-circuits the `or`, so the image is skipped even if
`height` is not numeric; otherwise `int(height)` decides (failing keeps). -/
def sizeSkip (it : ImgItem) : Bool :=
  match truthy (getAttr it.attrs "width"), truthy (getAttr it.attrs "height") with
  | some w, some h =>
    (match pyInt w with
     | none => false
     | some wv =>
       if wv < 100 then true
       else
         match pyInt h with
         | none => false
         | some hv => decide (hv < 100))
  | _, _ => false

/-- The caption cascade of lines 349-360: the enclosing figure's
`figcaption` text (cleaned), else the `alt` attribute, else the `title`
attribute, else empty. -/
def captionOf (it : ImgItem) : String :=
  let c1 := match it.figcap with
    | some s => clean_text s
    | none => ""
  if c1 ≠ "" then c1
  else
    let a := clean_text ((getAttr it.attrs "alt").getD "")
    if a ≠ "" then a else clean_text ((getAttr it.attrs "title").getD "")

/-- The image loop of lines 334-367 over the `<img>` elements of the
content area, in document order: resolve the URL (skipping unresolvable
images, propagating the resolver's `IndexError`), apply the size filter,
compute the caption, and append the entry unless its URL equals the chosen
thumbnail. -/
def buildImages (uj : String → String → String) (base : String) (thumb : Option String) :
    List ImgItem → Except Unit (List ImgEntry)
  | [] => .ok []
  | it :: rest =>
    match _get_img_url uj (some it.attrs) base with
    | .error e => .error e
    | .ok none => buildImages uj base thumb rest
    | .ok (some u) =>
      if sizeSkip it then buildImages uj base thumb rest
      else
        match buildImages uj base thumb rest with
        | .error e => .error e
        | .ok tail =>
          .ok (if some u ≠ thumb then ⟨u, captionOf it⟩ :: tail else tail)

/-- Alternatives of the image-area class regex (line 330) — note: unlike
the content regex of line 304, it lacks `post-body`. -/
def imgAreaPats : List String :=
  ["entry-content", "post-content", "article-content", "content"]

/-- The content area recomputed for images (lines 330-332). -/
def imgAreaOf (art : List HN × HN) : List HN × HN :=
  match (elemsWithAnc (art.2 :: art.1) (childOf art.2)).find?
      (fun pr => (tagOf pr.2 = "div" || tagOf pr.2 = "section") &&
        classMatches imgAreaPats pr.2) with
  | some r => r
  | none => art

/-- `img.find_parent('figure')` then `parent_fig.find('figcaption')`
(lines 352-356): nearest `figure` ancestor, first `figcaption` descendant,
its raw text. -/
def figcapOf (anc : List HN) : Option String :=
  match anc.find? (fun x => tagOf x = "figure") with
  | none => none
  | some fig =>
    match (elemsWithAnc [] (childOf fig)).find? (fun pr => tagOf pr.2 = "figcaption") with
    | none => none
    | some pr => some ⟨textOfF (childOf pr.2)⟩

/-- The `<img>` elements of the image area, in document order, as
`ImgItem`s. -/
def collectImgs (area : List HN × HN) : List ImgItem :=
  ((elemsWithAnc (area.2 :: area.1) (childOf area.2)).filter
    (fun pr => tagOf pr.2 = "img")).map
    (fun pr => ⟨attrsOf pr.2, figcapOf pr.1⟩)

/-- The `images` field of a scraped record, given the resolved base URL and
the previously chosen thumbnail (`thumb` is left universally quantified in
the theorems, covering whatever the thumbnail cascade selected). -/
def scrapeImages (uj : String → String → String) (doc : HN) (base : String)
    (thumb : Option String) : Except Unit (List ImgEntry) :=
  match resolveArticle doc with
  | none => .ok []
  | some art => buildImages uj base thumb (collectImgs (imgAreaOf art))

theorem buildImages_mem_ne_thumb : ∀ (uj : String → String → String) (base : String)
    (thumb : Option String) (l : List ImgItem) (r : List ImgEntry),
    buildImages uj base thumb l = .ok r → ∀ e ∈ r, some e.url ≠ thumb := by
  intro uj base thumb l
  induction l with
  | nil =>
    intro r h e he
    simp only [buildImages, Except.ok.injEq] at h
    subst h
    simp at he
  | cons it rest ih =>
    intro r h e he
    unfold buildImages at h
    cases hu : _get_img_url uj (some it.attrs) base with
    | error e2 =>
      simp only [hu] at h
      exact Except.noConfusion h
    | ok v =>
      cases v with
      | none =>
        simp only [hu] at h
        exact ih r h e he
      | some u =>
        simp only [hu] at h
        by_cases hs : sizeSkip it
        · rw [if_pos hs] at h
          exact ih r h e he
        · rw [if_neg hs] at h
          cases ht : buildImages uj base thumb rest with
          | error e2 =>
            simp only [ht] at h
            exact Except.noConfusion h
          | ok tail =>
            simp only [ht, Except.ok.injEq] at h
            subst h
            by_cases hne : some u ≠ thumb
            · rw [if_pos hne] at he
              rcases List.mem_cons.mp he with rfl | he2
              · exact hne
              · exact ih tail ht e he2
            · rw [if_neg hne] at he
              exact ih tail ht e he

theorem buildImages_skip : ∀ (uj : String → String → String) (base : String)
    (thumb : Option String) (l1 l2 : List ImgItem) (it : ImgItem),
    sizeSkip it = true →
    (∃ v, _get_img_url uj (some it.attrs) base = Except.ok v) →
    buildImages uj base thumb (l1 ++ it :: l2) = buildImages uj base thumb (l1 ++ l2) := by
  intro uj base thumb l1 l2 it hs hv
  induction l1 with
  | nil =>
    obtain ⟨v, hv⟩ := hv
    show buildImages uj base thumb (it :: l2) = buildImages uj base thumb l2
    cases v with
    | none => simp [buildImages, hv]
    | some u => simp [buildImages, hv, hs]
  | cons x l1' ih =>
    show buildImages uj base thumb (x :: (l1' ++ it :: l2)) =
      buildImages uj base thumb (x :: (l1' ++ l2))
    cases hux : _get_img_url uj (some x.attrs) base with
    | error e2 => simp [buildImages, hux]
    | ok v =>
      cases v with
      | none => simp [buildImages, hux, ih]
      | some u => simp [buildImages, hux, ih]

/-- An image element with a numeric sub-100 width and a *non-numeric*
height. -/
def imgWidth50BadHeight : ImgItem :=
  ⟨[("src", "http://ex.com/i.jpg"), ("width", "50"), ("height", "abc")], none⟩

/-- C4 counterexample.  The claim states that the size-based exclusion
applies only when both attributes are present *and numeric*.  The source's
`int(width) < 100 or int(height) < 100` short-circuits: with `width="50"`
and the non-numeric `height="abc"`, no `ValueError` is raised and the image
is excluded (the claim would require it to appear, since its URL resolves
and differs from the thumbnail). -/
theorem claim_C4_counterexample :
    pyInt "abc" = none ∧
    truthy (getAttr imgWidth50BadHeight.attrs "width") = some "50" ∧
    truthy (getAttr imgWidth50BadHeight.attrs "height") = some "abc" ∧
    buildImages (fun _ u => u) "http://ex.com/" none [imgWidth50BadHeight] = .ok [] := by
  refine ⟨rfl, rfl, rfl, rfl⟩

/-- C4 (amended): every entry of `images` has a resolved URL different from
the chosen thumbnail; an image whose width and height are both present and
numeric with either value below 100 never appears; the size test is
evaluated left to right, so a numeric width below 100 excludes the image
even when the height is not numeric; and no size exclusion happens when
either attribute is absent/empty or when the width is not numeric. -/
theorem claim_C4 :
    (∀ (uj : String → String → String) (doc : HN) (base : String) (thumb : Option String)
      (r : List ImgEntry), scrapeImages uj doc base thumb = .ok r →
        ∀ e ∈ r, some e.url ≠ thumb) ∧
    (∀ (uj : String → String → String) (base : String) (thumb : Option String)
      (l : List ImgItem) (r : List ImgEntry), buildImages uj base thumb l = .ok r →
        ∀ e ∈ r, some e.url ≠ thumb) ∧
    (∀ (uj : String → String → String) (base : String) (thumb : Option String)
      (l1 l2 : List ImgItem) (it : ImgItem),
      sizeSkip it = true → (∃ v, _get_img_url uj (some it.attrs) base = Except.ok v) →
      buildImages uj base thumb (l1 ++ it :: l2) = buildImages uj base thumb (l1 ++ l2)) ∧
    (∀ (it : ImgItem) (w h : String) (wv hv : Int),
      truthy (getAttr it.attrs "width") = some w →
      truthy (getAttr it.attrs "height") = some h →
      pyInt w = some wv → pyInt h = some hv → (wv < 100 ∨ hv < 100) →
      sizeSkip it = true) ∧
    (∀ (it : ImgItem) (w h : String) (wv : Int),
      truthy (getAttr it.attrs "width") = some w →
      truthy (getAttr it.attrs "height") = some h →
      pyInt w = some wv → wv < 100 → sizeSkip it = true) ∧
    (∀ it : ImgItem, (truthy (getAttr it.attrs "width") = none ∨
        truthy (getAttr it.attrs "height") = none) → sizeSkip it = false) ∧
    (∀ (it : ImgItem) (w : String), truthy (getAttr it.attrs "width") = some w →
      pyInt w = none → sizeSkip it = false) ∧
    buildImages (fun _ u => u) "http://ex.com/" none
      [⟨[("src", "http://ex.com/i.jpg"), ("width", "50")], none⟩] =
      .ok [⟨"http://ex.com/i.jpg", ""⟩] := by
  refine ⟨?_, buildImages_mem_ne_thumb, buildImages_skip, ?_, ?_, ?_, ?_, rfl⟩
  · intro uj doc base thumb r h e he
    rw [scrapeImages] at h
    cases ha : resolveArticle doc with
    | none =>
      rw [ha] at h
      simp only [Except.ok.injEq] at h
      subst h
      simp at he
    | some art =>
      rw [ha] at h
      exact buildImages_mem_ne_thumb uj base thumb _ r h e he
  · intro it w h wv hv hw hh hwv hhv hor
    simp only [sizeSkip, hw, hh, hwv, hhv]
    by_cases hlt : wv < 100
    · simp [hlt]
    · simp only [if_neg hlt]
      exact decide_eq_true (hor.resolve_left hlt)
  · intro it w h wv hw hh hwv hlt
    simp only [sizeSkip, hw, hh, hwv]
    simp [hlt]
  · intro it hor
    rcases hor with hw | hh
    · cases hh2 : truthy (getAttr it.attrs "height") with
      | none => simp [sizeSkip, hw, hh2]
      | some h => simp [sizeSkip, hw, hh2]
    · cases hw2 : truthy (getAttr it.attrs "width") with
      | none => simp [sizeSkip, hw2, hh]
      | some w => simp [sizeSkip, hw2, hh]
  · intro it w hw hwn
    simp [sizeSkip, hw, hwn]
    cases hh2 : truthy (getAttr it.attrs "height") with
    | none => simp
    | some h => simp [hwn]

def img50x50 : ImgItem :=
  ⟨[("src", "http://ex.com/small.jpg"), ("width", "50"), ("height", "50")], none⟩

def imgBig : ImgItem :=
  ⟨[("src", "http://ex.com/big.jpg"), ("width", "600"), ("height", "400")], none⟩

/-- C4 witness: a 50x50 image vanishes from the list, and the surviving
entry's URL differs from the thumbnail. -/
theorem claim_C4_witness :
    buildImages (fun _ u => u) "http://ex.com/" (some "http://ex.com/thumb.jpg")
      [img50x50, imgBig] =
      buildImages (fun _ u => u) "http://ex.com/" (some "http://ex.com/thumb.jpg") [imgBig] ∧
    (∀ e ∈ ([⟨"http://ex.com/big.jpg", ""⟩] : List ImgEntry),
      some e.url ≠ some "http://ex.com/thumb.jpg") := by
  constructor
  · exact claim_C4.2.2.1 (fun _ u => u) "http://ex.com/" (some "http://ex.com/thumb.jpg")
      [] [imgBig] img50x50 (by decide) ⟨some "http://ex.com/small.jpg", rfl⟩
  · exact claim_C4.2.1 (fun _ u => u) "http://ex.com/" (some "http://ex.com/thumb.jpg")
      [imgBig] [⟨"http://ex.com/big.jpg", ""⟩] rfl
